import Mathlib

/-!
Verification of the vgtd container model (`src/gtd.rs`).

The Rust source is embedded shallowly: each trait with default methods
(`TaskContainer`, `ProjectContainer`, `ListContainer`) only touches the
child vector returned by its accessor (`tasks()`, `projects()`, `lists()`),
so each default method is embedded as a pure Lean function over that child
list; the structs `Task`, `Project`, `List` and `File` become Lean
structures (the GTD `List` struct is named `GtdList` because `List` is
taken by Lean's core list type).  `EResult<T>` (a `Result` carrying a boxed
`io::Error` built from an `ErrorKind` and a message) becomes
`Except GtdError`.
-/

namespace Gtd

/-- Error kinds used by `gtd.rs` (`io::ErrorKind` values it constructs). -/
inductive ErrorKind where
  | NotFound
  | AlreadyExists
  | InvalidInput
deriving DecidableEq, Repr

/-- An `io::Error` as built by `io::Error::new(kind, message)` in `gtd.rs`. -/
structure GtdError where
  kind : ErrorKind
  message : String
deriving DecidableEq, Repr

/-- `EResult<T>` from the crate: `Result<T, Box<dyn Error>>`, where every
error constructed in `gtd.rs` is an `io::Error` with a kind and message. -/
abbrev EResult (α : Type) : Type := Except GtdError α

deriving instance DecidableEq for Except

/-- `enum Status { TODO, DONE }`. -/
inductive Status where
  | TODO
  | DONE
deriving DecidableEq, Repr

/-- Rust `str::to_lowercase`, modelled as a character-wise lowercase map
(it agrees with Rust on the ASCII inputs `Status::parse` distinguishes). -/
def toLowercase (s : String) : String :=
  ⟨s.data.map Char.toLower⟩

/-- `Status::parse(source: &Option<String>) -> EResult<Self>`.  Note that
the source lowercases the input first and builds the error message via
`format!("No status matches \"{}\".", status)` from the lowercased
binding `status`, not from the original input. -/
def Status.parse (source : Option String) : EResult Status :=
  match source with
  | none => .ok Status.DONE
  | some status =>
    let status := toLowercase status
    if status.isEmpty || status == "done" then
      .ok Status.DONE
    else if status == "todo" then
      .ok Status.TODO
    else
      .error ⟨ErrorKind.InvalidInput, "No status matches \"" ++ status ++ "\"."⟩

/-- `struct Task { name, description, status, contexts }`. -/
structure Task where
  name : String
  description : Option String
  status : Status
  contexts : List String
deriving DecidableEq, Repr

/-- `Task::new(name, description)`: status forced to TODO, no contexts. -/
def Task.new (name : String) (description : Option String) : Task :=
  { name := name, description := description, status := Status.TODO, contexts := [] }

/-- `Task::done(&self) -> bool { matches!(self.status, Status::DONE) }`. -/
def Task.done (t : Task) : Bool :=
  match t.status with
  | Status.DONE => true
  | Status.TODO => false

/-! `TaskContainer` default methods, as functions of the owned task
vector `self.tasks()`. -/

/-- `TaskContainer::get_task(index)`: positional access via `Vec::get`. -/
def get_task (tasks : List Task) (index : Nat) : Option Task :=
  tasks.get? index

/-- `TaskContainer::get_task_forced(index)`: NotFound on a miss. -/
def get_task_forced (tasks : List Task) (index : Nat) : EResult Task :=
  match get_task tasks index with
  | some task => .ok task
  | none => .error ⟨ErrorKind.NotFound, "Task not found."⟩

/-- `TaskContainer::task_exists(name)`: `iter().find(|t| t.name == name).is_some()`. -/
def task_exists (tasks : List Task) (name : String) : Bool :=
  (tasks.find? (fun task => task.name == name)).isSome

/-- `TaskContainer::task_exists_forced(name)`: AlreadyExists when the name
is taken, `Ok(true)` otherwise.  The Rust method takes `&self` (a shared
borrow), so the container is never mutated; the embedding is accordingly a
pure function of the task vector. -/
def task_exists_forced (tasks : List Task) (name : String) : EResult Bool :=
  if task_exists tasks name then
    .error ⟨ErrorKind.AlreadyExists, "Task already exists."⟩
  else
    .ok true

/-- `TaskContainer::push_task(task)`. -/
def push_task (tasks : List Task) (task : Task) : List Task :=
  tasks ++ [task]

/-- `TaskContainer::remove_task(index)`: `Vec::remove` returns the element
at `index` and shifts later elements down; it panics when `index` is out
of bounds, modelled by `none`. -/
def remove_task (tasks : List Task) (index : Nat) : Option (Task × List Task) :=
  match tasks.get? index with
  | some task => some (task, tasks.eraseIdx index)
  | none => none

/-- `TaskContainer::tasks_completed()`: count of tasks with `done()`. -/
def tasks_completed (tasks : List Task) : Nat :=
  (tasks.filter (fun t => t.done)).length

/-- `TaskContainer::all_tasks_done()`: false on empty, otherwise
`tasks_completed() == tasks().len()`. -/
def all_tasks_done (tasks : List Task) : Bool :=
  if tasks.isEmpty then
    false
  else
    tasks_completed tasks == tasks.length

/-- `struct Project { name, tasks, contexts }` — no stored status field. -/
structure Project where
  name : String
  tasks : List Task
  contexts : List String
deriving DecidableEq, Repr

/-- `Project::new(name)`. -/
def Project.new (name : String) : Project :=
  { name := name, tasks := [], contexts := [] }

/-- `Project::status()`: empty → TODO; any task not done → TODO; else DONE. -/
def Project.status (p : Project) : Status :=
  if p.tasks.isEmpty then
    Status.TODO
  else if p.tasks.any (fun t => ! t.done) then
    Status.TODO
  else
    Status.DONE

/-- `impl TaskContainer for Project`: `all_tasks_done` over `self.tasks`. -/
def Project.all_tasks_done (p : Project) : Bool :=
  Gtd.all_tasks_done p.tasks

/-! `ProjectContainer` default methods, as functions of `self.projects()`. -/

/-- `ProjectContainer::project_exists(name)`. -/
def project_exists (projects : List Project) (name : String) : Bool :=
  (projects.find? (fun project => project.name == name)).isSome

/-- `ProjectContainer::project_exists_forced(name)`: AlreadyExists when the
name is taken, `Ok(true)` otherwise. -/
def project_exists_forced (projects : List Project) (name : String) : EResult Bool :=
  if project_exists projects name then
    .error ⟨ErrorKind.AlreadyExists, "Project already exists."⟩
  else
    .ok true

/-- `ProjectContainer::projects_completed()`: count of projects with
`all_tasks_done()`. -/
def projects_completed (projects : List Project) : Nat :=
  (projects.filter (fun p => p.all_tasks_done)).length

/-- `ProjectContainer::all_projects_done()`:
`projects_completed() == projects().len()` (no empty-container guard). -/
def all_projects_done (projects : List Project) : Bool :=
  projects_completed projects == projects.length

/-- `struct List { name, tasks, projects, contexts }` (named `GtdList`
here; `List` is Lean's core list type). -/
structure GtdList where
  name : String
  tasks : List Task
  projects : List Project
  contexts : List String
deriving DecidableEq, Repr

/-- `impl TaskContainer for List`. -/
def GtdList.all_tasks_done (l : GtdList) : Bool :=
  Gtd.all_tasks_done l.tasks

/-- `impl ProjectContainer for List`. -/
def GtdList.all_projects_done (l : GtdList) : Bool :=
  Gtd.all_projects_done l.projects

/-- `impl ProjectContainer for List`. -/
def GtdList.projects_completed (l : GtdList) : Nat :=
  Gtd.projects_completed l.projects

/-! `ListContainer` default methods, as functions of `self.lists()`. -/

/-- `ListContainer::get_list(name)`: first list whose name equals `name`. -/
def get_list (lists : List GtdList) (name : String) : Option GtdList :=
  lists.find? (fun list => list.name == name)

/-- `ListContainer::get_list_forced(name)`: NotFound on a miss. -/
def get_list_forced (lists : List GtdList) (name : String) : EResult GtdList :=
  match get_list lists name with
  | some list => .ok list
  | none => .error ⟨ErrorKind.NotFound, "List not found."⟩

/-- `ListContainer::list_exists(name)`. -/
def list_exists (lists : List GtdList) (name : String) : Bool :=
  (lists.find? (fun list => list.name == name)).isSome

/-- `ListContainer::list_exists_forced(name)`: AlreadyExists when the name
is taken, `Ok(true)` otherwise. -/
def list_exists_forced (lists : List GtdList) (name : String) : EResult Bool :=
  if list_exists lists name then
    .error ⟨ErrorKind.AlreadyExists, "List already exists."⟩
  else
    .ok true

/-- `struct File { lists: Vec<List> }`. -/
structure File where
  lists : List GtdList
deriving DecidableEq, Repr

/-! ### Serialization model

The TOML encoder/decoder used by `File::write_to_file` is an external
crate (`toml`/serde derive), not code of this repository; only the
`#[derive(Serialize, Deserialize)]` struct declarations are in `gtd.rs`.
The document shape is therefore modelled from the spec (§6). -/

/-- Modelled from the spec: a generic structured-text value (the
TOML-equivalent document), missing from `src/` because serialization is
performed by an external generic encoder.  Strings, arrays of values, and
records of key-value pairs. -/
inductive Value where
  | str : String → Value
  | arr : List Value → Value
  | table : List (String × Value) → Value

/-- Keys of a record value (empty for non-records). -/
def tableKeys : Value → List String
  | Value.table kvs => kvs.map (fun kv => kv.1)
  | _ => []

/-- Modelled from the spec: `status` is serialized as the literal
"TODO"/"DONE". -/
def encodeStatus : Status → Value
  | Status.TODO => Value.str "TODO"
  | Status.DONE => Value.str "DONE"

/-- Modelled from the spec: decoder for the serialized status literal. -/
def decodeStatus : Value → Option Status
  | Value.str "TODO" => some Status.TODO
  | Value.str "DONE" => some Status.DONE
  | _ => none

/-- Modelled from the spec: `contexts` is an array of strings. -/
def encodeContexts (cs : List String) : Value :=
  Value.arr (cs.map Value.str)

/-- Decoder for a single string value. -/
def decodeString : Value → Option String
  | Value.str s => some s
  | _ => none

/-- Element-wise decoder for an array of values. -/
def decodeArr {α : Type} (dec : Value → Option α) : List Value → Option (List α)
  | [] => some []
  | v :: vs =>
    match dec v, decodeArr dec vs with
    | some a, some rest => some (a :: rest)
    | _, _ => none

/-- Decoder for a `contexts` array. -/
def decodeContexts : Value → Option (List String)
  | Value.arr vs => decodeArr decodeString vs
  | _ => none

/-- Modelled from the spec: a Task record carries `name`, optional
`description` (the key is omitted when absent), `status` and `contexts`. -/
def encodeTask (t : Task) : Value :=
  Value.table
    ([("name", Value.str t.name)]
      ++ (match t.description with
          | none => []
          | some d => [("description", Value.str d)])
      ++ [("status", encodeStatus t.status),
          ("contexts", encodeContexts t.contexts)])

/-- Modelled from the spec: decoder for a Task record in the canonical
field order produced by the encoder, with and without `description`. -/
def decodeTask : Value → Option Task
  | Value.table [("name", Value.str name), ("status", sv), ("contexts", cv)] =>
    match decodeStatus sv, decodeContexts cv with
    | some status, some contexts => some ⟨name, none, status, contexts⟩
    | _, _ => none
  | Value.table [("name", Value.str name), ("description", Value.str d),
      ("status", sv), ("contexts", cv)] =>
    match decodeStatus sv, decodeContexts cv with
    | some status, some contexts => some ⟨name, some d, status, contexts⟩
    | _, _ => none
  | _ => none

/-- Modelled from the spec: a Project record carries `name`, `tasks` and
`contexts` — and no stored status field (§3, §6). -/
def encodeProject (p : Project) : Value :=
  Value.table
    [("name", Value.str p.name),
     ("tasks", Value.arr (p.tasks.map encodeTask)),
     ("contexts", encodeContexts p.contexts)]

/-- Modelled from the spec: decoder for a Project record. -/
def decodeProject : Value → Option Project
  | Value.table [("name", Value.str name), ("tasks", Value.arr tvs),
      ("contexts", cv)] =>
    match decodeArr decodeTask tvs, decodeContexts cv with
    | some tasks, some contexts => some ⟨name, tasks, contexts⟩
    | _, _ => none
  | _ => none

/-- Modelled from the spec: a List record carries `name`, `contexts`,
`tasks` and `projects`. -/
def encodeGtdList (l : GtdList) : Value :=
  Value.table
    [("name", Value.str l.name),
     ("contexts", encodeContexts l.contexts),
     ("tasks", Value.arr (l.tasks.map encodeTask)),
     ("projects", Value.arr (l.projects.map encodeProject))]

/-- Modelled from the spec: decoder for a List record. -/
def decodeGtdList : Value → Option GtdList
  | Value.table [("name", Value.str name), ("contexts", cv),
      ("tasks", Value.arr tvs), ("projects", Value.arr pvs)] =>
    match decodeContexts cv, decodeArr decodeTask tvs,
        decodeArr decodeProject pvs with
    | some contexts, some tasks, some projects =>
      some ⟨name, tasks, projects, contexts⟩
    | _, _, _ => none
  | _ => none

/-- Modelled from the spec: the File root serializes as the sequence of
its List records. -/
def encodeFile (f : File) : Value :=
  Value.table [("lists", Value.arr (f.lists.map encodeGtdList))]

/-- Modelled from the spec: decoder for the File root. -/
def decodeFile : Value → Option File
  | Value.table [("lists", Value.arr lvs)] =>
    match decodeArr decodeGtdList lvs with
    | some lists => some ⟨lists⟩
    | _ => none
  | _ => none

/-! ### Helper lemmas -/

theorem toLowercase_eq_empty_iff (s : String) : toLowercase s = "" ↔ s = "" := by
  cases s with
  | mk data => simp [toLowercase, String.ext_iff]

theorem Task.done_iff (t : Task) : t.done = true ↔ t.status = Status.DONE := by
  cases h : t.status <;> simp [Task.done, h]

theorem all_tasks_done_iff (tasks : List Task) :
    all_tasks_done tasks = true ↔ tasks ≠ [] ∧ ∀ t ∈ tasks, t.done = true := by
  unfold all_tasks_done tasks_completed
  by_cases h : tasks.isEmpty
  · simp_all [List.isEmpty_iff]
  · rw [if_neg h]
    simp only [List.isEmpty_iff] at h
    simp [h, List.filter_length_eq_length]

theorem Project.status_done_iff (p : Project) :
    p.status = Status.DONE ↔ p.tasks ≠ [] ∧ ∀ t ∈ p.tasks, t.done = true := by
  unfold Project.status
  by_cases h : p.tasks.isEmpty
  · simp_all [List.isEmpty_iff]
  · rw [if_neg h]
    simp only [List.isEmpty_iff] at h
    by_cases hany : p.tasks.any (fun t => ! t.done)
    · simp only [hany, if_pos]
      simp only [List.any_eq_true, Bool.not_eq_true'] at hany
      obtain ⟨t, ht, hdone⟩ := hany
      constructor
      · intro habs; cases habs
      · rintro ⟨-, hall⟩
        exact absurd (hall t ht) (by simp [hdone])
    · simp only [hany, if_neg, if_false]
      simp only [List.any_eq_true, Bool.not_eq_true', not_exists] at hany
      refine ⟨fun _ => ⟨h, fun t ht => ?_⟩, fun _ => rfl⟩
      have := hany t
      simp only [ht, true_and] at this
      cases hd : t.done
      · exact absurd hd this
      · rfl

theorem Project.all_tasks_done_eq_status_done (p : Project) :
    p.all_tasks_done = (p.status == Status.DONE) := by
  rw [Bool.eq_iff_iff]
  rw [Project.all_tasks_done, all_tasks_done_iff, beq_iff_eq, Project.status_done_iff]

theorem task_exists_iff (tasks : List Task) (name : String) :
    task_exists tasks name = true ↔ ∃ t ∈ tasks, t.name = name := by
  rw [task_exists, List.find?_isSome]
  simp

theorem find?_first_spec {α : Type} (p : α → Bool) (l : List α) (a : α)
    (h : l.find? p = some a) :
    p a = true ∧ ∃ xs ys, l = xs ++ a :: ys ∧ ∀ x ∈ xs, p x = false := by
  induction l with
  | nil => cases h
  | cons b l ih =>
    by_cases hb : p b
    · rw [List.find?_cons_of_pos _ hb] at h
      injection h with h
      subst h
      exact ⟨hb, [], l, rfl, by simp⟩
    · rw [List.find?_cons_of_neg _ hb] at h
      obtain ⟨hpa, xs, ys, hsplit, hxs⟩ := ih h
      refine ⟨hpa, b :: xs, ys, by rw [hsplit]; rfl, ?_⟩
      intro x hx
      rcases List.mem_cons.mp hx with rfl | hx
      · exact Bool.eq_false_iff.mpr hb
      · exact hxs x hx

theorem decodeArr_map {α : Type} (enc : α → Value) (dec : Value → Option α)
    (h : ∀ a, dec (enc a) = some a) (xs : List α) :
    decodeArr dec (xs.map enc) = some xs := by
  induction xs with
  | nil => rfl
  | cons x xs ih => simp [decodeArr, h x, ih]

theorem decodeStatus_encodeStatus (s : Status) :
    decodeStatus (encodeStatus s) = some s := by
  cases s <;> rfl

theorem decodeContexts_encodeContexts (cs : List String) :
    decodeContexts (encodeContexts cs) = some cs := by
  rw [encodeContexts, decodeContexts]
  exact decodeArr_map Value.str decodeString (fun _ => rfl) cs

theorem decodeTask_encodeTask (t : Task) :
    decodeTask (encodeTask t) = some t := by
  cases t with
  | mk name description status contexts =>
    cases description <;>
      simp [encodeTask, decodeTask, decodeStatus_encodeStatus,
        decodeContexts_encodeContexts]

theorem decodeProject_encodeProject (p : Project) :
    decodeProject (encodeProject p) = some p := by
  cases p with
  | mk name tasks contexts =>
    simp [encodeProject, decodeProject,
      decodeArr_map encodeTask decodeTask decodeTask_encodeTask,
      decodeContexts_encodeContexts]

theorem decodeGtdList_encodeGtdList (l : GtdList) :
    decodeGtdList (encodeGtdList l) = some l := by
  cases l with
  | mk name tasks projects contexts =>
    simp [encodeGtdList, decodeGtdList,
      decodeArr_map encodeTask decodeTask decodeTask_encodeTask,
      decodeArr_map encodeProject decodeProject decodeProject_encodeProject,
      decodeContexts_encodeContexts]

/-! ### Claims -/

/-- C1: for every Project, `status()` is computed purely from its current
Task sequence: empty → TODO; any owned Task not DONE → TODO; otherwise
DONE.  Equivalently, `status()` = DONE iff the Task sequence is non-empty
and every Task has status DONE. -/
theorem project_status_derivation (p : Project) :
    (p.tasks = [] → p.status = Status.TODO) ∧
    ((∃ t ∈ p.tasks, t.status ≠ Status.DONE) → p.status = Status.TODO) ∧
    (p.status = Status.DONE ↔ p.tasks ≠ [] ∧ ∀ t ∈ p.tasks, t.status = Status.DONE) := by
  have hiff : p.status = Status.DONE ↔ p.tasks ≠ [] ∧ ∀ t ∈ p.tasks, t.status = Status.DONE := by
    rw [Project.status_done_iff]
    simp only [Task.done_iff]
  refine ⟨fun h => ?_, fun h => ?_, hiff⟩
  · cases hs : p.status
    · rfl
    · exact absurd (hiff.mp hs).1 (by simp [h])
  · cases hs : p.status
    · rfl
    · obtain ⟨t, ht, hne⟩ := h
      exact absurd ((hiff.mp hs).2 t ht) hne

/-- C1 witness: a Project whose single Task is DONE has status DONE. -/
theorem project_status_derivation_witness :
    (Project.mk "p" [Task.mk "t" none Status.DONE []] []).status = Status.DONE :=
  (project_status_derivation _).2.2.mpr (by decide)

/-- C2: a Task container (Project or List) with zero owned Tasks has
`all_tasks_done() = false`, while a List with zero owned Projects has
`all_projects_done() = true` — the intentional empty-container asymmetry. -/
theorem empty_container_asymmetry (p : Project) (l l' : GtdList) :
    (p.tasks = [] → p.all_tasks_done = false) ∧
    (l.tasks = [] → l.all_tasks_done = false) ∧
    (l'.projects = [] → l'.all_projects_done = true) := by
  refine ⟨fun h => ?_, fun h => ?_, fun h => ?_⟩
  · simp [Project.all_tasks_done, all_tasks_done, h]
  · simp [GtdList.all_tasks_done, all_tasks_done, h]
  · simp [GtdList.all_projects_done, all_projects_done, projects_completed, h]

/-- C2 witness: both behaviors hold simultaneously on concrete empty
containers. -/
theorem empty_container_asymmetry_witness :
    (Project.mk "p" [] []).all_tasks_done = false ∧
    (GtdList.mk "l" [] [] []).all_tasks_done = false ∧
    (GtdList.mk "m" [] [] []).all_projects_done = true :=
  ⟨(empty_container_asymmetry (Project.mk "p" [] []) (GtdList.mk "l" [] [] [])
      (GtdList.mk "m" [] [] [])).1 rfl,
   (empty_container_asymmetry (Project.mk "p" [] []) (GtdList.mk "l" [] [] [])
      (GtdList.mk "m" [] [] [])).2.1 rfl,
   (empty_container_asymmetry (Project.mk "p" [] []) (GtdList.mk "l" [] [] [])
      (GtdList.mk "m" [] [] [])).2.2 rfl⟩

/-- C4: `Status::parse` maps `None` to DONE; an empty or
case-insensitively "done" string to DONE; a case-insensitively "todo"
string to TODO; every other non-empty string to an InvalidInput failure. -/
theorem status_parse_cases :
    Status.parse none = Except.ok Status.DONE ∧
    (∀ s : String, s = "" ∨ toLowercase s = "done" →
      Status.parse (some s) = Except.ok Status.DONE) ∧
    (∀ s : String, toLowercase s = "todo" →
      Status.parse (some s) = Except.ok Status.TODO) ∧
    (∀ s : String, s ≠ "" → toLowercase s ≠ "done" → toLowercase s ≠ "todo" →
      Status.parse (some s) = Except.error
        ⟨ErrorKind.InvalidInput, "No status matches \"" ++ toLowercase s ++ "\"."⟩) := by
  refine ⟨rfl, fun s h => ?_, fun s h => ?_, fun s h1 h2 h3 => ?_⟩
  · rcases h with rfl | h
    · rfl
    · simp [Status.parse, h]
  · simp [Status.parse, h]
    decide
  · have he : (toLowercase s).isEmpty = false := by
      rw [Bool.eq_false_iff]
      intro habs
      exact h1 (toLowercase_eq_empty_iff s |>.mp (String.isEmpty_iff _ |>.mp habs))
    simp [Status.parse, he, h2, h3]

/-- C4 witness: concrete parses for "DoNe", "TODO" and "xyz". -/
theorem status_parse_cases_witness :
    Status.parse (some "DoNe") = Except.ok Status.DONE ∧
    Status.parse (some "TODO") = Except.ok Status.TODO ∧
    Status.parse (some "xyz")
      = Except.error ⟨ErrorKind.InvalidInput, "No status matches \"xyz\"."⟩ := by
  refine ⟨status_parse_cases.2.1 "DoNe" (Or.inr (by decide)),
          status_parse_cases.2.2.1 "TODO" (by decide), ?_⟩
  have h := status_parse_cases.2.2.2 "xyz" (by decide) (by decide) (by decide)
  rwa [(by decide :
    ("No status matches \"" ++ toLowercase "xyz" ++ "\".") = "No status matches \"xyz\".")] at h

/-- C5 counterexample: for the non-empty input "Xyz" (neither "done" nor
"todo" case-insensitively) the failure message is built from the
lowercased string, so it does not contain "Xyz" as given. -/
theorem status_parse_message_not_verbatim :
    Status.parse (some "Xyz")
      = Except.error ⟨ErrorKind.InvalidInput, "No status matches \"xyz\"."⟩ ∧
    ¬ "Xyz".data <:+: "No status matches \"xyz\".".data := by
  exact ⟨by decide, by decide⟩

/-- C5 amended: for every non-empty input that is not "done" or "todo"
case-insensitively, `Status::parse` returns an InvalidInput failure whose
message carries the lowercased offending string (not the string as
given). -/
theorem status_parse_error_carries_lowercased (s : String)
    (h1 : s ≠ "") (h2 : toLowercase s ≠ "done") (h3 : toLowercase s ≠ "todo") :
    Status.parse (some s) = Except.error
      ⟨ErrorKind.InvalidInput, "No status matches \"" ++ toLowercase s ++ "\"."⟩ ∧
    (toLowercase s).data <:+: ("No status matches \"" ++ toLowercase s ++ "\".").data := by
  constructor
  · have he : (toLowercase s).isEmpty = false := by
      rw [Bool.eq_false_iff]
      intro habs
      exact h1 (toLowercase_eq_empty_iff s |>.mp (String.isEmpty_iff _ |>.mp habs))
    simp [Status.parse, he, h2, h3]
  · refine ⟨"No status matches \"".data, "\".".data, ?_⟩
    simp [String.data_append]

/-- C5 amended witness: the failure message for "Xyz" contains "xyz". -/
theorem status_parse_error_carries_lowercased_witness :
    Status.parse (some "Xyz")
      = Except.error ⟨ErrorKind.InvalidInput,
          "No status matches \"" ++ toLowercase "Xyz" ++ "\"."⟩ ∧
    (toLowercase "Xyz").data
      <:+: ("No status matches \"" ++ toLowercase "Xyz" ++ "\".").data :=
  status_parse_error_carries_lowercased "Xyz" (by decide) (by decide) (by decide)

/-- C3: for every List, `projects_completed()` equals the number of owned
Projects whose derived status is DONE; and for every Project, the code's
criterion `all_tasks_done()` coincides with `status()` being DONE. -/
theorem projects_completed_counts_done_status (l : GtdList) :
    l.projects_completed
      = (l.projects.filter (fun p => p.status == Status.DONE)).length ∧
    ∀ p : Project, p.all_tasks_done = (p.status == Status.DONE) := by
  constructor
  · rw [GtdList.projects_completed, projects_completed]
    congr 1
    exact List.filter_congr fun p _ => Project.all_tasks_done_eq_status_done p
  · exact Project.all_tasks_done_eq_status_done

/-- C6: `task_exists_forced(name)` succeeds carrying `true` iff no owned
Task is named `name`, and fails with AlreadyExists when one is.  The Rust
method takes `&self`, so the container state is unchanged in both cases
(the embedding is accordingly a pure function of the task vector). -/
theorem task_exists_forced_spec (tasks : List Task) (name : String) :
    (task_exists_forced tasks name = Except.ok true ↔ ¬ ∃ t ∈ tasks, t.name = name) ∧
    ((∃ t ∈ tasks, t.name = name) →
      task_exists_forced tasks name
        = Except.error ⟨ErrorKind.AlreadyExists, "Task already exists."⟩) := by
  constructor
  · rw [task_exists_forced]
    by_cases h : task_exists tasks name
    · rw [if_pos h]
      simp [(task_exists_iff tasks name).mp h]
    · rw [if_neg h]
      simp only [task_exists_iff] at h
      simp [h]
  · intro h
    rw [task_exists_forced, if_pos ((task_exists_iff tasks name).mpr h)]

/-- C6 witness: concrete success and failure of the guard. -/
theorem task_exists_forced_spec_witness :
    task_exists_forced [Task.mk "a" none Status.TODO []] "a"
      = Except.error ⟨ErrorKind.AlreadyExists, "Task already exists."⟩ ∧
    task_exists_forced [Task.mk "a" none Status.TODO []] "b" = Except.ok true :=
  ⟨(task_exists_forced_spec [Task.mk "a" none Status.TODO []] "a").2 (by decide),
   (task_exists_forced_spec [Task.mk "a" none Status.TODO []] "b").1.mpr (by decide)⟩

/-- C7: for every index strictly below the number of owned Tasks,
`remove_task(index)` returns the Task formerly at that index; Tasks
before `index` are unchanged in place, every Task formerly after `index`
shifts down by one, and the resulting sequence is the old one with
position `index` deleted. -/
theorem remove_task_spec (tasks : List Task) (index : Nat)
    (h : index < tasks.length) :
    remove_task tasks index = some (tasks.get ⟨index, h⟩, tasks.eraseIdx index) ∧
    (∀ j, j < index → (tasks.eraseIdx index).get? j = tasks.get? j) ∧
    (∀ j, index ≤ j → (tasks.eraseIdx index).get? j = tasks.get? (j + 1)) ∧
    tasks.eraseIdx index = tasks.take index ++ tasks.drop (index + 1) := by
  have htake : (tasks.take index).length = index := by
    rw [List.length_take]
    omega
  refine ⟨?_, fun j hj => ?_, fun j hj => ?_, List.eraseIdx_eq_take_drop_succ tasks index⟩
  · rw [remove_task, List.get?_eq_get h]
  · rw [List.eraseIdx_eq_take_drop_succ,
      List.get?_append (by rw [htake]; exact hj), List.get?_take hj]
  · rw [List.eraseIdx_eq_take_drop_succ,
      List.get?_append_right (by rw [htake]; exact hj), htake, List.get?_drop]
    congr 1
    omega

/-- C7 witness: removing index 0 from a 3-Task container shifts the
former index-1 Task to index 0. -/
theorem remove_task_spec_witness :
    ([Task.new "a" none, Task.new "b" none, Task.new "c" none].eraseIdx 0).get? 0
      = [Task.new "a" none, Task.new "b" none, Task.new "c" none].get? 1 :=
  (remove_task_spec [Task.new "a" none, Task.new "b" none, Task.new "c" none] 0
    (by decide)).2.2.1 0 (by decide)

/-- C8: `get_list(name)` returns the first owned List, in sequence order,
whose name equals `name` exactly, and is `none` when no owned List has
that name; `get_list_forced(name)` returns that same List and fails with
NotFound exactly when `get_list(name)` is absent. -/
theorem get_list_spec (lists : List GtdList) (name : String) :
    (get_list lists name = none ↔ ∀ l ∈ lists, l.name ≠ name) ∧
    (∀ l, get_list lists name = some l →
      l.name = name ∧ ∃ xs ys, lists = xs ++ l :: ys ∧ ∀ x ∈ xs, x.name ≠ name) ∧
    (∀ l, get_list lists name = some l → get_list_forced lists name = Except.ok l) ∧
    (get_list lists name = none →
      get_list_forced lists name
        = Except.error ⟨ErrorKind.NotFound, "List not found."⟩) := by
  refine ⟨?_, fun l hl => ?_, fun l hl => ?_, fun hn => ?_⟩
  · rw [get_list, List.find?_eq_none]
    simp
  · obtain ⟨hp, xs, ys, hsplit, hxs⟩ := find?_first_spec _ lists l hl
    exact ⟨by simpa using hp, xs, ys, hsplit, fun x hx => by simpa using hxs x hx⟩
  · rw [get_list_forced, hl]
  · rw [get_list_forced, hn]

/-- C8 witness: lookup of "b" in a two-List file finds the second List
and the forced variant returns it. -/
theorem get_list_spec_witness :
    get_list_forced [GtdList.mk "a" [] [] [], GtdList.mk "b" [] [] []] "b"
      = Except.ok (GtdList.mk "b" [] [] []) :=
  (get_list_spec [GtdList.mk "a" [] [] [], GtdList.mk "b" [] [] []] "b").2.2.1
    (GtdList.mk "b" [] [] []) (by decide)

/-- C10: the forced existence guards `task_exists_forced`,
`project_exists_forced` and `list_exists_forced` never return a success
carrying `false`: whenever they succeed, the carried boolean is `true`. -/
theorem forced_guards_never_ok_false :
    (∀ (tasks : List Task) (name : String) (b : Bool),
      task_exists_forced tasks name = Except.ok b → b = true) ∧
    (∀ (projects : List Project) (name : String) (b : Bool),
      project_exists_forced projects name = Except.ok b → b = true) ∧
    (∀ (lists : List GtdList) (name : String) (b : Bool),
      list_exists_forced lists name = Except.ok b → b = true) := by
  refine ⟨fun tasks name b h => ?_, fun projects name b h => ?_,
    fun lists name b h => ?_⟩
  · rw [task_exists_forced] at h
    split at h
    · cases h
    · injection h with h
      exact h.symm
  · rw [project_exists_forced] at h
    split at h
    · cases h
    · injection h with h
      exact h.symm
  · rw [list_exists_forced] at h
    split at h
    · cases h
    · injection h with h
      exact h.symm

/-- C10 witness: a concrete success of each guard carries `true`. -/
theorem forced_guards_never_ok_false_witness :
    task_exists_forced [] "a" = Except.ok true ∧
    project_exists_forced [] "a" = Except.ok true ∧
    list_exists_forced [] "a" = Except.ok true ∧ true = true :=
  ⟨by decide, by decide, by decide,
    forced_guards_never_ok_false.1 [] "a" true (by decide)⟩

/-- C9: serializing a File and deserializing the resulting document
reproduces an equivalent tree — here, decoding the encoded document yields
the identical File, hence the same List, Project and Task names, statuses,
descriptions and context sequences in their original order — and the
serialized form of a Project record never contains a status field. -/
theorem file_roundtrip_and_no_project_status :
    (∀ f : File, decodeFile (encodeFile f) = some f) ∧
    (∀ p : Project, "status" ∉ tableKeys (encodeProject p)) := by
  constructor
  · intro f
    cases f with
    | mk lists =>
      simp [encodeFile, decodeFile,
        decodeArr_map encodeGtdList decodeGtdList decodeGtdList_encodeGtdList]
  · intro p
    simp [encodeProject, tableKeys]

end Gtd
